import Mathlib

/-!
Shallow embedding of `go-nbreader` (package `nbreader`, file `nbreader.go`).

The package adapts a blocking `io.Reader` into a non-blocking one.  A
background goroutine (`readInput`) reads chunks of up to `blockSize` bytes
from the underlying reader and sends them over the unbuffered channel
`dataChan`, closing it on the first error.  The synchronous `Read` method
pulls chunks from that channel under computed timeouts, accumulates them in
`buffer` (a `bytes.Buffer`), and drains up to `len(p)` bytes per call.

Embedding conventions:
- Bytes are `Nat`; byte slices are `List Nat`.
- `time.Duration` values are `Int` (nanosecond counts; they may go negative
  in the `remaining` computation exactly as in Go).
- Wall-clock time advances only while `Read` waits on the channel; each wait
  outcome is an oracle `ChanEvent` carrying the duration the wait took
  (`time.Now().Sub(lastStart)` in the code).  A list of events stands for
  the sequence of outcomes the selects of one — or several consecutive —
  `Read` calls observe; each call consumes a front segment and hands the
  rest to the next call.
- The result of an underlying `reader.Read` in the producer goroutine is a
  `SrcResult` (data plus error flag); the producer's interaction with the
  source is a finite list of such results.
-/

namespace Nbreader

/-- Error component of a Go `(n, err)` return inside this package: `none`
models a nil error, `eof` models `io.EOF`, `timeout` models the package's
internal `errTimeout`. -/
inductive ReadErr where
  | none
  | eof
  | timeout
deriving DecidableEq, Repr

/-- State of the `NBReader` struct that the claims are about.  The Go fields
`reader` and `dataChan` are externalized: the underlying reader is modelled
as a trace of `SrcResult`s fed to `readInput`, and the channel as the
`ChanEvent` oracle consumed by `Read`. -/
structure NBReader where
  blockSize : Nat
  buffer : List Nat
  chunkTimeout : Int
  forceTimeout : Int
  isEOF : Bool
deriving DecidableEq, Repr

/-- Outcome of one `reader.Read(tmp)` performed by the producer goroutine:
the bytes read and whether a (any) error was returned.  The Go code ignores
the data of an erroring read, so no more detail is needed. -/
structure SrcResult where
  data : List Nat
  isErr : Bool
deriving DecidableEq, Repr

/-- Models `readInput` (nbreader.go lines 123-133): the sequence of chunks
sent on `dataChan`, given the trace of results the underlying reader
delivers.  The loop sends `tmp[0:length]` after every successful read and
breaks on the first error, after which it closes the channel; results after
the first error are never requested.  An empty trace means the source was
never observed to err within the modelled interaction. -/
def readInput : List SrcResult → List (List Nat)
  | [] => []
  | res :: rest => if res.isErr then [] else res.data :: readInput rest

/-- Models reaching the `close(r.dataChan)` statement of `readInput`: the
producer loop terminates, and hence closes the channel, exactly when some
read of the trace errors. -/
def producerCloses (trace : List SrcResult) : Bool :=
  trace.any (fun res => res.isErr)

/-- Outcome of one wait on `dataChan` inside `readWithTimeout`
(nbreader.go lines 136-147): either a chunk was received, or the channel
was observed closed (the received slice is then nil), or `time.After`
fired first.  The `Int` is the wall-clock duration the wait took. -/
inductive ChanEvent where
  | chunk (data : List Nat) (d : Int)
  | closed (d : Int)
  | timedOut (d : Int)
deriving DecidableEq, Repr

/-- Duration of a wait outcome: the value of `time.Now().Sub(lastStart)`
measured right after `readWithTimeout` returns (nbreader.go line 104). -/
def ChanEvent.dur : ChanEvent → Int
  | .chunk _ d => d
  | .closed d => d
  | .timedOut d => d

/-- Bytes a wait outcome appends to `r.buffer`: the received chunk, or
nothing (receiving from a closed channel yields a nil slice, and a timeout
writes nothing). -/
def ChanEvent.data : ChanEvent → List Nat
  | .chunk data _ => data
  | .closed _ => []
  | .timedOut _ => []

/-- Whether the wait outcome observed the channel closed. -/
def ChanEvent.isClosed : ChanEvent → Bool
  | .closed _ => true
  | _ => false

/-- Models Go `bytes.Buffer.Read(p)` with `L = len(p)`: drains up to `L`
bytes from the front and returns `(remaining buffer, bytes read, err)`,
where err is `io.EOF` exactly when the buffer is empty and `L > 0`
(`bytes.Buffer.Read` returns `(0, nil)` for an empty read request). -/
def bufferRead (buf : List Nat) (L : Nat) : List Nat × List Nat × ReadErr :=
  (buf.drop L, buf.take L, if buf = [] ∧ L ≠ 0 then ReadErr.eof else ReadErr.none)

/-- Models `readWithTimeout` (nbreader.go lines 136-147) applied to one wait
outcome: a received chunk is written to `r.buffer` and `(len(data), nil)` is
returned; a closed channel writes the nil slice (no change) and returns
`(0, io.EOF)`; an elapsed timer returns `(0, errTimeout)`.  The timeout
argument of the Go function only bounds which events can physically occur,
which the oracle already fixes, so it does not appear here. -/
def readWithTimeout (r : NBReader) (ev : ChanEvent) : NBReader × Nat × ReadErr :=
  match ev with
  | .chunk data _ => ({ r with buffer := r.buffer ++ data }, data.length, ReadErr.none)
  | .closed _ => (r, 0, ReadErr.eof)
  | .timedOut _ => (r, 0, ReadErr.timeout)

/-- Models `remaining = r.forceTimeout - time.Now().Sub(start)`
(nbreader.go line 97), with `elapsed` the time since the call started. -/
def remainingTime (r : NBReader) (elapsed : Int) : Int :=
  r.forceTimeout - elapsed

/-- Models the `nextTimeout` computation (nbreader.go lines 98-102):
`if r.chunkTimeout == 0 || r.chunkTimeout > remaining { nextTimeout =
remaining } else { nextTimeout = r.chunkTimeout }`. -/
def nextTimeout (r : NBReader) (remaining : Int) : Int :=
  if r.chunkTimeout = 0 ∨ r.chunkTimeout > remaining then remaining else r.chunkTimeout

/-- Per-iteration wait bound of the loop of `Read`, as a function of the
elapsed time since the call started. -/
def iterTimeout (r : NBReader) (elapsed : Int) : Int :=
  nextTimeout r (remainingTime r elapsed)

/-- Models the body of the waiting loop of `Read` (nbreader.go lines
96-116) for one wait outcome `ev`, threading the elapsed time since the
call started.  Returns the updated state, the new elapsed time, and whether
the loop breaks: on `errTimeout` with `duration >= r.chunkTimeout`; on
`io.EOF` (setting `isEOF`); or when the total elapsed time has reached
`r.forceTimeout`. -/
def loopStep (r : NBReader) (elapsed : Int) (ev : ChanEvent) : NBReader × Int × Bool :=
  let res := readWithTimeout r ev
  let elapsed' := elapsed + ev.dur
  if res.2.2 = ReadErr.timeout ∧ r.chunkTimeout ≤ ev.dur then (res.1, elapsed', true)
  else if res.2.2 = ReadErr.eof then ({ res.1 with isEOF := true }, elapsed', true)
  else if r.forceTimeout ≤ elapsed' then (res.1, elapsed', true)
  else (res.1, elapsed', false)

/-- Models the waiting loop `for r.buffer.Len() < len(buffer) { ... }` of
`Read` (nbreader.go lines 95-117) run against the oracle of wait outcomes.
Returns the final state, the final elapsed time, and the wait outcomes not
consumed by this call (in a real execution a call performs exactly the
waits it consumes; the leftover list belongs to later calls). -/
def readLoop (r : NBReader) (L : Nat) (elapsed : Int) (evs : List ChanEvent) :
    NBReader × Int × List ChanEvent :=
  match evs with
  | [] => (r, elapsed, [])
  | ev :: rest =>
    if L ≤ r.buffer.length then (r, elapsed, ev :: rest)
    else
      let s := loopStep r elapsed ev
      if s.2.2 then (s.1, s.2.1, rest) else readLoop s.1 L s.2.1 rest

/-- Result of one call to `Read`: the state after the call, the bytes
written into the caller's slice (their length is the returned `n`), the
returned error, and the wait outcomes left for later calls. -/
structure ReadResult where
  state : NBReader
  out : List Nat
  err : ReadErr
  rest : List ChanEvent
deriving DecidableEq, Repr

/-- Models `Read` (nbreader.go lines 78-120) with `L = len(buffer)`:
fast path when `len(buffer) <= r.buffer.Len()` (error of the drain
discarded, line 87); the `isEOF` path returning `r.buffer.Read(buffer)`
verbatim (line 92); otherwise the waiting loop followed by a drain whose
error is discarded (lines 118-119). -/
def read (r : NBReader) (L : Nat) (evs : List ChanEvent) : ReadResult :=
  if L ≤ r.buffer.length then
    { state := { r with buffer := (bufferRead r.buffer L).1 }
      out := (bufferRead r.buffer L).2.1
      err := ReadErr.none
      rest := evs }
  else if r.isEOF then
    { state := { r with buffer := (bufferRead r.buffer L).1 }
      out := (bufferRead r.buffer L).2.1
      err := (bufferRead r.buffer L).2.2
      rest := evs }
  else
    { state := { (readLoop r L 0 evs).1 with
                 buffer := (bufferRead (readLoop r L 0 evs).1.buffer L).1 }
      out := (bufferRead (readLoop r L 0 evs).1.buffer L).2.1
      err := ReadErr.none
      rest := (readLoop r L 0 evs).2.2 }

/-- Repeated calls to `Read`, one per requested length in `Ls`, each call
consuming wait outcomes from the front of the shared oracle.  Returns the
final state, the unconsumed outcomes, and the list of byte slices returned
to the caller, in call order. -/
def runCalls (r : NBReader) (evs : List ChanEvent) (Ls : List Nat) :
    NBReader × List ChanEvent × List (List Nat) :=
  match Ls with
  | [] => (r, evs, [])
  | L :: rest =>
    let res := read r L evs
    let after := runCalls res.state res.rest rest
    (after.1, after.2.1, res.out :: after.2.2)

/-! Helper lemmas about single loop iterations and the waiting loop. -/

/-- One loop iteration appends to the buffer exactly the bytes the wait
outcome delivered. -/
theorem loopStep_buffer (r : NBReader) (elapsed : Int) (ev : ChanEvent) :
    (loopStep r elapsed ev).1.buffer = r.buffer ++ ev.data := by
  cases ev <;> simp [loopStep, readWithTimeout, ChanEvent.data, ChanEvent.dur] <;>
    split_ifs <;> rfl

/-- One loop iteration sets `isEOF` exactly when it was already set or the
channel was observed closed. -/
theorem loopStep_isEOF (r : NBReader) (elapsed : Int) (ev : ChanEvent) :
    (loopStep r elapsed ev).1.isEOF = (r.isEOF || ev.isClosed) := by
  cases ev <;> simp [loopStep, readWithTimeout, ChanEvent.isClosed, ChanEvent.dur] <;>
    split_ifs <;> rfl

/-- The waiting loop consumes a front segment of the wait-outcome oracle and
appends exactly the bytes of the consumed outcomes to the buffer, in order. -/
theorem readLoop_consumed (L : Nat) :
    ∀ (evs : List ChanEvent) (r : NBReader) (elapsed : Int),
    ∃ consumed, evs = consumed ++ (readLoop r L elapsed evs).2.2 ∧
      (readLoop r L elapsed evs).1.buffer
        = r.buffer ++ (consumed.map ChanEvent.data).flatten := by
  intro evs
  induction evs with
  | nil => intro r elapsed; refine ⟨[], ?_, ?_⟩ <;> simp [readLoop]
  | cons ev rest ih =>
    intro r elapsed
    by_cases hL : L ≤ r.buffer.length
    · refine ⟨[], ?_, ?_⟩ <;> simp [readLoop, hL]
    · by_cases hstop : (loopStep r elapsed ev).2.2 = true
      · refine ⟨[ev], ?_, ?_⟩ <;> simp [readLoop, hL, hstop, loopStep_buffer]
      · obtain ⟨c, hc1, hc2⟩ := ih (loopStep r elapsed ev).1 (loopStep r elapsed ev).2.1
        have hred : readLoop r L elapsed (ev :: rest)
            = readLoop (loopStep r elapsed ev).1 L (loopStep r elapsed ev).2.1 rest := by
          simp [readLoop, hL, hstop]
        refine ⟨ev :: c, ?_, ?_⟩
        · rw [hred, List.cons_append]
          exact congrArg (ev :: ·) hc1
        · rw [hred, hc2, loopStep_buffer]
          simp

/-- The waiting loop ends with `isEOF` set only if it was set on entry or
some consumed wait outcome observed the channel closed. -/
theorem readLoop_isEOF (L : Nat) :
    ∀ (evs : List ChanEvent) (r : NBReader) (elapsed : Int),
    (readLoop r L elapsed evs).1.isEOF = true →
      r.isEOF = true ∨ ∃ d, ChanEvent.closed d ∈ evs := by
  intro evs
  induction evs with
  | nil => intro r elapsed h; left; simpa [readLoop] using h
  | cons ev rest ih =>
    intro r elapsed h
    by_cases hL : L ≤ r.buffer.length
    · left; simpa [readLoop, hL] using h
    · by_cases hstop : (loopStep r elapsed ev).2.2 = true
      · have h' : (loopStep r elapsed ev).1.isEOF = true := by
          simpa [readLoop, hL, hstop] using h
        cases hEOF : r.isEOF with
        | true => exact Or.inl rfl
        | false =>
          rw [loopStep_isEOF, hEOF, Bool.false_or] at h'
          cases ev with
          | chunk data d => simp [ChanEvent.isClosed] at h'
          | closed d => exact Or.inr ⟨d, List.mem_cons_self _ _⟩
          | timedOut d => simp [ChanEvent.isClosed] at h'
      · have hred : readLoop r L elapsed (ev :: rest)
            = readLoop (loopStep r elapsed ev).1 L (loopStep r elapsed ev).2.1 rest := by
          simp [readLoop, hL, hstop]
        rw [hred] at h
        rcases ih (loopStep r elapsed ev).1 (loopStep r elapsed ev).2.1 h with h1 | ⟨d, hd⟩
        · cases hEOF : r.isEOF with
          | true => exact Or.inl rfl
          | false =>
            rw [loopStep_isEOF, hEOF, Bool.false_or] at h1
            cases ev with
            | chunk data d => simp [ChanEvent.isClosed] at h1
            | closed d => exact Or.inr ⟨d, List.mem_cons_self _ _⟩
            | timedOut d => simp [ChanEvent.isClosed] at h1
        · exact Or.inr ⟨d, List.mem_cons_of_mem _ hd⟩

/-- One call to `Read` consumes a front segment of the oracle; the bytes it
returns followed by the bytes left buffered equal the prior buffer followed
by the bytes of the consumed wait outcomes, in order. -/
theorem read_conserved (r : NBReader) (L : Nat) (evs : List ChanEvent) :
    ∃ consumed, evs = consumed ++ (read r L evs).rest ∧
      (read r L evs).out ++ (read r L evs).state.buffer
        = r.buffer ++ (consumed.map ChanEvent.data).flatten := by
  by_cases h1 : L ≤ r.buffer.length
  · refine ⟨[], ?_, ?_⟩ <;> simp [read, h1, bufferRead]
  · cases h2 : r.isEOF with
    | true => refine ⟨[], ?_, ?_⟩ <;> simp [read, h1, h2, bufferRead]
    | false =>
      obtain ⟨c, hc1, hc2⟩ := readLoop_consumed L evs r 0
      refine ⟨c, ?_, ?_⟩
      · simpa [read, h1, h2] using hc1
      · have hread : (read r L evs).out ++ (read r L evs).state.buffer
            = (readLoop r L 0 evs).1.buffer := by
          simp [read, h1, h2, bufferRead]
        rw [hread]
        exact hc2

/-- Across any sequence of `Read` calls, the concatenation of the returned
byte slices followed by what remains buffered equals the prior buffer
followed by the bytes of the consumed wait outcomes, in order. -/
theorem runCalls_conserved :
    ∀ (Ls : List Nat) (r : NBReader) (evs : List ChanEvent),
    ∃ consumed, evs = consumed ++ (runCalls r evs Ls).2.1 ∧
      ((runCalls r evs Ls).2.2).flatten ++ (runCalls r evs Ls).1.buffer
        = r.buffer ++ (consumed.map ChanEvent.data).flatten := by
  intro Ls
  induction Ls with
  | nil => intro r evs; refine ⟨[], ?_, ?_⟩ <;> simp [runCalls]
  | cons L rest ih =>
    intro r evs
    obtain ⟨c1, h11, h12⟩ := read_conserved r L evs
    obtain ⟨c2, h21, h22⟩ := ih (read r L evs).state (read r L evs).rest
    have hr : runCalls r evs (L :: rest)
        = ((runCalls (read r L evs).state (read r L evs).rest rest).1,
           (runCalls (read r L evs).state (read r L evs).rest rest).2.1,
           (read r L evs).out
             :: (runCalls (read r L evs).state (read r L evs).rest rest).2.2) := by
      simp [runCalls]
    refine ⟨c1 ++ c2, ?_, ?_⟩
    · rw [hr, List.append_assoc, ← h21]
      exact h11
    · rw [hr]
      simp only [List.flatten_cons]
      rw [List.append_assoc, h22, ← List.append_assoc, h12,
          List.append_assoc, List.map_append, List.flatten_append]

/-! Claim theorems. -/

/-- C1: for every sequence of chunks produced by the underlying source, the
concatenation of all bytes returned across repeated calls to `Read`,
followed by the bytes still buffered (those not yet requested remain
buffered for later calls), equals the concatenation of all bytes the source
produced — same order, no loss, no duplication.  The hypotheses say the
reader starts with an empty buffer, the calls consume the whole oracle, and
the oracle delivers exactly the bytes `readInput` forwarded from the
source. -/
theorem read_preserves_stream (r0 : NBReader) (trace : List SrcResult)
    (evs : List ChanEvent) (Ls : List Nat)
    (hbuf : r0.buffer = [])
    (hall : (runCalls r0 evs Ls).2.1 = [])
    (hdel : (evs.map ChanEvent.data).flatten = (readInput trace).flatten) :
    ((runCalls r0 evs Ls).2.2).flatten ++ (runCalls r0 evs Ls).1.buffer
      = (readInput trace).flatten := by
  obtain ⟨c, h1, h2⟩ := runCalls_conserved Ls r0 evs
  rw [hall, List.append_nil] at h1
  rw [h2, hbuf, ← h1, List.nil_append]
  exact hdel

/-- Witness for C1 at a concrete run: the source yields bytes 1, 2 then
errors; reads of lengths 2 then 1 return those bytes and drain the buffer. -/
theorem read_preserves_stream_witness :
    ((runCalls ⟨4, [], 0, 1000, false⟩
        [ChanEvent.chunk [1, 2] 0, ChanEvent.closed 0] [2, 1]).2.2).flatten
      ++ (runCalls ⟨4, [], 0, 1000, false⟩
        [ChanEvent.chunk [1, 2] 0, ChanEvent.closed 0] [2, 1]).1.buffer
      = (readInput [⟨[1, 2], false⟩, ⟨[], true⟩]).flatten :=
  read_preserves_stream ⟨4, [], 0, 1000, false⟩ [⟨[1, 2], false⟩, ⟨[], true⟩]
    [ChanEvent.chunk [1, 2] 0, ChanEvent.closed 0] [2, 1] rfl (by decide) (by decide)

/-- C2: `Read` returns the `io.EOF` indication only when the internal
buffer is empty and the source has signalled permanent exhaustion (`isEOF`
set); in every other case it returns bytes (possibly zero of them) with a
nil error, even when the requested length was not fully satisfied. -/
theorem read_eof_only_at_exhaustion (r : NBReader) (L : Nat) (evs : List ChanEvent) :
    (read r L evs).err = ReadErr.none ∨
      ((read r L evs).err = ReadErr.eof ∧ r.buffer = [] ∧ r.isEOF = true) := by
  by_cases h1 : L ≤ r.buffer.length
  · left; simp [read, h1]
  · cases h2 : r.isEOF with
    | false => left; simp [read, h1, h2]
    | true =>
      by_cases h3 : r.buffer = [] ∧ L ≠ 0
      · right; exact ⟨by simp [read, h1, h2, bufferRead, h3], h3.1, rfl⟩
      · left; simp [read, h1, h2, bufferRead, h3]

/-- C3: the waiting loop of `Read` stops exactly when the buffer holds at
least `L` bytes (loop guard), or the wait timed out with this iteration's
elapsed time at least the chunk timeout, or the channel was observed closed
(setting end-of-stream), or the total elapsed time since call start reached
the overall timeout — even if a chunk just arrived in that iteration. -/
theorem read_loop_stop_conditions (r : NBReader) (elapsed : Int) (ev : ChanEvent)
    (L : Nat) (evs : List ChanEvent) :
    ((loopStep r elapsed ev).2.2 = true ↔
      (∃ d, ev = ChanEvent.timedOut d ∧ r.chunkTimeout ≤ d) ∨
      (∃ d, ev = ChanEvent.closed d) ∨
      r.forceTimeout ≤ elapsed + ev.dur) ∧
    ((∃ d, ev = ChanEvent.closed d) → (loopStep r elapsed ev).1.isEOF = true) ∧
    (L ≤ r.buffer.length → readLoop r L elapsed evs = (r, elapsed, evs)) ∧
    (r.buffer.length < L → (loopStep r elapsed ev).2.2 = true →
      readLoop r L elapsed (ev :: evs)
        = ((loopStep r elapsed ev).1, (loopStep r elapsed ev).2.1, evs)) ∧
    (r.buffer.length < L → (loopStep r elapsed ev).2.2 = false →
      readLoop r L elapsed (ev :: evs)
        = readLoop (loopStep r elapsed ev).1 L (loopStep r elapsed ev).2.1 evs) := by
  have hguard : ∀ h : L ≤ r.buffer.length, readLoop r L elapsed evs = (r, elapsed, evs) := by
    intro h; cases evs <;> simp [readLoop, h]
  refine ⟨?_, ?_, hguard, ?_, ?_⟩
  · cases ev <;> simp [loopStep, readWithTimeout, ChanEvent.dur] <;>
      split_ifs <;> simp_all
  · rintro ⟨d, rfl⟩
    simp [loopStep, readWithTimeout]
  · intro h hstop
    have h' : ¬ L ≤ r.buffer.length := by omega
    simp [readLoop, h', hstop]
  · intro h hstop
    have h' : ¬ L ≤ r.buffer.length := by omega
    simp [readLoop, h', hstop]

/-- Witness for C3: with a closed-channel wait outcome and one byte short,
the loop stops in that iteration, leaving the remaining oracle untouched. -/
theorem read_loop_stop_conditions_witness :
    readLoop ⟨4, [], 5, 100, false⟩ 1 0 [ChanEvent.closed 2]
      = ((loopStep ⟨4, [], 5, 100, false⟩ 0 (ChanEvent.closed 2)).1,
         (loopStep ⟨4, [], 5, 100, false⟩ 0 (ChanEvent.closed 2)).2.1, []) :=
  (read_loop_stop_conditions ⟨4, [], 5, 100, false⟩ 0 (ChanEvent.closed 2) 1
    []).2.2.2.1 (by decide) (by decide)

/-- C4: in every iteration of the waiting loop, the per-iteration wait bound
equals the smaller of the remaining overall budget and the chunk timeout,
except that a zero chunk timeout means the remaining budget is used. -/
theorem nextTimeout_eq_min (r : NBReader) (elapsed : Int) :
    iterTimeout r elapsed =
      if r.chunkTimeout = 0 then remainingTime r elapsed
      else min (remainingTime r elapsed) r.chunkTimeout := by
  by_cases h : r.chunkTimeout = 0
  · simp [iterTimeout, nextTimeout, remainingTime, h]
  · simp [iterTimeout, nextTimeout, remainingTime, h, Int.min_def]
    split_ifs <;> omega

/-- C5: when the buffer already holds at least `L` bytes, `Read` copies out
exactly `L` bytes and returns them with a nil error, consuming no wait
outcomes (no timeout or waiting logic invoked); and a call with `L = 0`
always returns 0 bytes with a nil error and no waiting, including when the
instance is already past end-of-stream. -/
theorem read_fast_path (r : NBReader) (L : Nat) (evs : List ChanEvent)
    (h : L ≤ r.buffer.length) :
    read r L evs
      = ⟨{ r with buffer := r.buffer.drop L }, r.buffer.take L, ReadErr.none, evs⟩ ∧
    (read r L evs).out.length = L ∧
    read r 0 evs = ⟨r, [], ReadErr.none, evs⟩ := by
  refine ⟨?_, ?_, ?_⟩
  · simp [read, h, bufferRead]
  · simp [read, h, bufferRead]
  · simp [read, bufferRead, Nat.zero_le]

/-- Witness for C5: a buffer holding three bytes serves a two-byte request
in full, and a zero-length request returns nothing, both without touching
the oracle — here with the end-of-stream flag already set. -/
theorem read_fast_path_witness :
    read ⟨4, [1, 2, 3], 7, 50, true⟩ 2 [ChanEvent.closed 0]
        = ⟨⟨4, [3], 7, 50, true⟩, [1, 2], ReadErr.none, [ChanEvent.closed 0]⟩ ∧
      (read ⟨4, [1, 2, 3], 7, 50, true⟩ 2 [ChanEvent.closed 0]).out.length = 2 ∧
      read ⟨4, [1, 2, 3], 7, 50, true⟩ 0 [ChanEvent.closed 0]
        = ⟨⟨4, [1, 2, 3], 7, 50, true⟩, [], ReadErr.none, [ChanEvent.closed 0]⟩ :=
  read_fast_path ⟨4, [1, 2, 3], 7, 50, true⟩ 2 [ChanEvent.closed 0] (by decide)

/-- C6: the producer loop sends exactly the data of the successful source
reads preceding the first error, in order and with exact content (in
particular every non-empty successful chunk), and on any error — clean
end-of-stream or any other failure, with no distinction surfaced — it stops
looping and closes the handoff channel, terminating permanently. -/
theorem readInput_sends_until_error (pre post : List SrcResult) (e : SrcResult)
    (hpre : ∀ x ∈ pre, x.isErr = false) (he : e.isErr = true) :
    readInput (pre ++ e :: post) = pre.map SrcResult.data ∧
    producerCloses (pre ++ e :: post) = true := by
  constructor
  · induction pre with
    | nil => simp [readInput, he]
    | cons x rest ih =>
      have hx : x.isErr = false := hpre x (List.mem_cons_self _ _)
      simp only [List.cons_append, readInput, hx, List.map_cons, if_false,
        Bool.false_eq_true, ite_false]
      exact congrArg (x.data :: ·) (ih fun y hy => hpre y (List.mem_cons_of_mem _ hy))
  · simp only [producerCloses, List.any_eq_true]
    exact ⟨e, List.mem_append_right _ (List.mem_cons_self _ _), he⟩

/-- Witness for C6: a source yielding bytes 1, 2, then an error, then one
more (never requested) result: only the pre-error chunk is forwarded and
the channel gets closed. -/
theorem readInput_sends_until_error_witness :
    readInput [⟨[1, 2], false⟩, ⟨[], true⟩, ⟨[9], false⟩] = [[1, 2]] ∧
    producerCloses [⟨[1, 2], false⟩, ⟨[], true⟩, ⟨[9], false⟩] = true :=
  readInput_sends_until_error [⟨[1, 2], false⟩] [⟨[9], false⟩] ⟨[], true⟩
    (by decide) rfl

/-- C7: with both timeouts zero, the remaining budget at call start is
already zero, so the first wait uses a zero/immediate bound, and the
waiting loop — whenever entered — exits after exactly one iteration
whatever that wait's outcome: `Read` returns at once with what is
buffered. -/
theorem read_zero_timeouts_immediate (r : NBReader) (L : Nat) (elapsed : Int)
    (ev : ChanEvent) (evs : List ChanEvent)
    (hf : r.forceTimeout = 0) (hc : r.chunkTimeout = 0)
    (he : 0 ≤ elapsed) (hd : 0 ≤ ev.dur) (hbuf : r.buffer.length < L) :
    iterTimeout r 0 ≤ 0 ∧ (loopStep r elapsed ev).2.2 = true ∧
    readLoop r L elapsed (ev :: evs)
      = ((loopStep r elapsed ev).1, (loopStep r elapsed ev).2.1, evs) := by
  have hstop : (loopStep r elapsed ev).2.2 = true := by
    cases ev with
    | chunk data d =>
      have hdd : (0 : Int) ≤ d := hd
      have hft : r.forceTimeout ≤ elapsed + d := by omega
      simp [loopStep, readWithTimeout, ChanEvent.dur, hft]
    | closed d => simp [loopStep, readWithTimeout]
    | timedOut d =>
      have hdd : (0 : Int) ≤ d := hd
      have hct : r.chunkTimeout ≤ d := by omega
      simp [loopStep, readWithTimeout, ChanEvent.dur, hct]
  refine ⟨?_, hstop, ?_⟩
  · simp [iterTimeout, nextTimeout, remainingTime, hf, hc]
  · have h' : ¬ L ≤ r.buffer.length := by omega
    simp [readLoop, h', hstop]

/-- Witness for C7: both timeouts zero, empty buffer, request of one byte,
one timed-out wait of duration zero: the bound is immediate and the loop
exits in that single iteration. -/
theorem read_zero_timeouts_immediate_witness :
    iterTimeout ⟨4, [], 0, 0, false⟩ 0 ≤ 0 ∧
    (loopStep ⟨4, [], 0, 0, false⟩ 0 (ChanEvent.timedOut 0)).2.2 = true ∧
    readLoop ⟨4, [], 0, 0, false⟩ 1 0 [ChanEvent.timedOut 0]
      = ((loopStep ⟨4, [], 0, 0, false⟩ 0 (ChanEvent.timedOut 0)).1,
         (loopStep ⟨4, [], 0, 0, false⟩ 0 (ChanEvent.timedOut 0)).2.1, []) :=
  read_zero_timeouts_immediate ⟨4, [], 0, 0, false⟩ 1 0 (ChanEvent.timedOut 0) []
    rfl rfl (by decide) (by decide) (by decide)

/-- C8 counterexample: block size 1 with one byte buffered — so the buffer
holds at least `blockSize` bytes — but a request of length 2: the two
states below differ only in the overall timeout, yet against the same wait
outcomes one call returns two bytes and the other one byte.  `Read` did
wait and its result depends on the specified timeouts, so holding
`blockSize` bytes does not make `Read` return regardless of the timeouts. -/
theorem blockSize_threshold_counterexample :
    (⟨1, [7], 10, 1000, false⟩ : NBReader).blockSize
        ≤ (⟨1, [7], 10, 1000, false⟩ : NBReader).buffer.length ∧
    (read ⟨1, [7], 10, 1000, false⟩ 2
        [ChanEvent.timedOut 3, ChanEvent.chunk [8] 0]).out = [7, 8] ∧
    (read ⟨1, [7], 10, 2, false⟩ 2
        [ChanEvent.timedOut 3, ChanEvent.chunk [8] 0]).out = [7] := by decide

/-- C8 amended: the caller's requested length `L` is the operative "enough
data already buffered" threshold; the README guarantee holds once `L` is at
most `blockSize`: when the buffer holds at least `blockSize` bytes and
`L ≤ blockSize`, `Read` returns `L` bytes immediately, regardless of the
specified timeouts and of any channel activity. -/
theorem blockSize_threshold_amended (r : NBReader) (L : Nat) (evs : List ChanEvent)
    (hb : r.blockSize ≤ r.buffer.length) (hL : L ≤ r.blockSize) :
    read r L evs
      = ⟨{ r with buffer := r.buffer.drop L }, r.buffer.take L, ReadErr.none, evs⟩ ∧
    (read r L evs).out.length = L := by
  have h : L ≤ r.buffer.length := le_trans hL hb
  constructor
  · simp [read, h, bufferRead]
  · simp [read, h, bufferRead]

/-- Witness for C8 amended: block size 2, three bytes buffered, request of
two bytes served in full although both timeouts are zero and the only wait
outcome available would be a timeout. -/
theorem blockSize_threshold_amended_witness :
    read ⟨2, [4, 5, 6], 0, 0, false⟩ 2 [ChanEvent.timedOut 1]
        = ⟨⟨2, [6], 0, 0, false⟩, [4, 5], ReadErr.none, [ChanEvent.timedOut 1]⟩ ∧
    (read ⟨2, [4, 5, 6], 0, 0, false⟩ 2 [ChanEvent.timedOut 1]).out.length = 2 :=
  blockSize_threshold_amended ⟨2, [4, 5, 6], 0, 0, false⟩ 2 [ChanEvent.timedOut 1]
    (by decide) (by decide)

/-- C9: once the end-of-stream flag is set, every later call to `Read`
ignores the oracle entirely (skips the waiting loop), only drains the
buffer, and leaves the flag set — it is never reset; and the flag becomes
set only by a call that observed the handoff channel closed. -/
theorem isEOF_set_once (r : NBReader) (L : Nat) (evs : List ChanEvent) :
    (r.isEOF = true →
      (read r L evs).state = { r with buffer := r.buffer.drop L } ∧
      (read r L evs).out = r.buffer.take L ∧
      (read r L evs).rest = evs ∧
      (read r L evs).state.isEOF = true) ∧
    ((read r L evs).state.isEOF = true →
      r.isEOF = true ∨ ∃ d, ChanEvent.closed d ∈ evs) := by
  constructor
  · intro hEOF
    by_cases h1 : L ≤ r.buffer.length
    · refine ⟨?_, ?_, ?_, ?_⟩ <;> simp [read, h1, bufferRead, hEOF]
    · refine ⟨?_, ?_, ?_, ?_⟩ <;> simp [read, h1, bufferRead, hEOF]
  · intro hset
    by_cases h1 : L ≤ r.buffer.length
    · left; simpa [read, h1] using hset
    · cases h2 : r.isEOF with
      | true => exact Or.inl rfl
      | false =>
        have h3 : (readLoop r L 0 evs).1.isEOF = true := by
          simpa [read, h1, h2] using hset
        rcases readLoop_isEOF L evs r 0 h3 with h4 | h4
        · rw [h2] at h4
          exact Or.inl h4
        · exact Or.inr h4

/-- Witness for C9: with the flag already set, a read of three bytes from a
one-byte buffer drains it without consuming the pending chunk outcome. -/
theorem isEOF_set_once_witness :
    (read ⟨4, [9], 0, 0, true⟩ 3 [ChanEvent.chunk [1] 0]).state
        = ⟨4, [], 0, 0, true⟩ ∧
    (read ⟨4, [9], 0, 0, true⟩ 3 [ChanEvent.chunk [1] 0]).rest
        = [ChanEvent.chunk [1] 0] :=
  ⟨((isEOF_set_once ⟨4, [9], 0, 0, true⟩ 3 [ChanEvent.chunk [1] 0]).1 rfl).1,
   ((isEOF_set_once ⟨4, [9], 0, 0, true⟩ 3 [ChanEvent.chunk [1] 0]).1 rfl).2.2.1⟩

/-- C10: whenever `Read` returns a non-nil error it is `io.EOF`, with zero
bytes returned and the buffer empty at that point (the internal timeout
error never escapes, and bytes are never returned together with an error);
and a call entered with the end-of-stream flag still unset returns a nil
error — the call during which closure is first observed discards the drain
error, so `io.EOF` only surfaces on a later call through the end-of-stream
fast path. -/
theorem read_error_cases (r : NBReader) (L : Nat) (evs : List ChanEvent) :
    ((read r L evs).err ≠ ReadErr.timeout) ∧
    ((read r L evs).err = ReadErr.eof →
      (read r L evs).out = [] ∧ r.buffer = [] ∧ r.isEOF = true) ∧
    (r.isEOF = false → (read r L evs).err = ReadErr.none) := by
  by_cases h1 : L ≤ r.buffer.length
  · refine ⟨?_, ?_, ?_⟩ <;> simp [read, h1]
  · cases h2 : r.isEOF with
    | false => refine ⟨?_, ?_, ?_⟩ <;> simp [read, h1, h2]
    | true =>
      by_cases h3 : r.buffer = [] ∧ L ≠ 0
      · obtain ⟨h3a, h3b⟩ := h3
        refine ⟨?_, ?_, ?_⟩ <;> simp [read, h1, h2, bufferRead, h3a, h3b]
      · refine ⟨?_, ?_, ?_⟩ <;> simp [read, h1, h2, bufferRead, h3]

/-- Witness for C10: past end-of-stream with an empty buffer, a one-byte
read returns no bytes and the `io.EOF` indication. -/
theorem read_error_cases_witness :
    ((read ⟨4, [], 0, 0, true⟩ 1 []).err ≠ ReadErr.timeout) ∧
    ((read ⟨4, [], 0, 0, true⟩ 1 []).err = ReadErr.eof →
      (read ⟨4, [], 0, 0, true⟩ 1 []).out = [] ∧
      (⟨4, [], 0, 0, true⟩ : NBReader).buffer = [] ∧
      (⟨4, [], 0, 0, true⟩ : NBReader).isEOF = true) ∧
    ((⟨4, [], 0, 0, true⟩ : NBReader).isEOF = false →
      (read ⟨4, [], 0, 0, true⟩ 1 []).err = ReadErr.none) :=
  read_error_cases ⟨4, [], 0, 0, true⟩ 1 []

end Nbreader
